import Mathlib

/-!
Verification of the SSD1677 LUT editor core (`scripts/lut_editor.py`).

The development shallowly embeds the model state and the pure logic of the
editor: the 112-byte LUT encoder (`voltage_pattern_to_lut`), the refresh-time
estimator (`calculate_timing`), the pattern-edit handlers (`add_voltage`,
`remove_voltage`, `on_voltage_change`), the numeric-field handlers
(`on_timing_change`, `on_framerate_change`, `on_voltage_setting_change`)
and the JSON persistence (`save_to_file` / `load_from_file`).

Python machine-level conventions used throughout the embedding:
* Python `int` is unbounded, so numeric fields are `Int`.
* Python dicts are embedded as insertion-ordered association lists,
  `dict[k]` as `List.lookup`, and `dict[k] = v` as an in-place update.
* Python floats are modelled by exact rationals (`ℚ`); `int(x)` truncates
  toward zero, which agrees with `⌊x⌋` on the nonnegative values produced
  by the estimator.
* A raised exception in fallible code is modelled by an error value.
-/

/-- Source `VS_MAP` inverted: `VS_REVERSE = {"VSS": 0, "VSH1": 1, "VSL": 2, "VSH2": 3}`. -/
def VS_REVERSE : List (String × Nat) :=
  [("VSS", 0), ("VSH1", 1), ("VSL", 2), ("VSH2", 3)]

/-- Source `VS_REVERSE.get(phase, 0)`: the defensive lookup the encoder uses; an
unknown symbolic name falls back to code `0` (VSS). -/
def vsReverseGet (phase : String) : Nat :=
  (VS_REVERSE.lookup phase).getD 0

/-- Source `VOLTAGE_OPTIONS = ["VSS", "VSH1", "VSL", "VSH2"]`. -/
def VOLTAGE_OPTIONS : List String :=
  ["VSS", "VSH1", "VSL", "VSH2"]

/-- The editor's model state: `self.voltage_patterns` (a dict from transition
index to a list of symbolic voltage names), `self.timing_groups` (ten
5-element lists), `self.frame_rate` and `self.voltages` (a dict from voltage
name to value).  Dicts are embedded as insertion-ordered association lists. -/
structure Model where
  voltage_patterns : List (Int × List String)
  timing_groups : List (List Int)
  frame_rate : Int
  voltages : List (String × Int)
deriving DecidableEq, Repr

/-- The model state installed by `LUTEditor.__init__`. -/
def defaultModel : Model where
  voltage_patterns :=
    [(0, ["VSS", "VSH1", "VSS", "VSH1"]),
     (1, ["VSL", "VSL", "VSL", "VSS"]),
     (2, ["VSH1", "VSS", "VSH1", "VSS"]),
     (3, ["VSS", "VSL", "VSS", "VSL"])]
  timing_groups :=
    [[4, 4, 0, 0, 0], [2, 2, 0, 0, 0], [0, 0, 0, 0, 0], [0, 0, 0, 0, 0],
     [0, 0, 0, 0, 0], [0, 0, 0, 0, 0], [0, 0, 0, 0, 0], [0, 0, 0, 0, 0],
     [0, 0, 0, 0, 0], [0, 0, 0, 0, 0]]
  frame_rate := 0x88
  voltages :=
    [("VGH", 0x17), ("VSH1", 0x41), ("VSH2", 0xA8), ("VSL", 0x32), ("VCOM", 0x30)]

/-- A fully valid `WaveformModel`: the pattern dict holds exactly the keys
`0..3` (one pattern per transition) with 1–40 steps drawn from
`VOLTAGE_OPTIONS`; there are 10 timing groups of five 8-bit fields; the frame
rate and the five voltage levels (keyed `VGH, VSH1, VSH2, VSL, VCOM`) are
8-bit values. -/
def ValidModel (m : Model) : Prop :=
  m.voltage_patterns.map Prod.fst = [0, 1, 2, 3] ∧
  (∀ kv ∈ m.voltage_patterns,
      1 ≤ kv.2.length ∧ kv.2.length ≤ 40 ∧ ∀ s ∈ kv.2, s ∈ VOLTAGE_OPTIONS) ∧
  m.timing_groups.length = 10 ∧
  (∀ g ∈ m.timing_groups, g.length = 5 ∧ ∀ x ∈ g, 0 ≤ x ∧ x ≤ 255) ∧
  0 ≤ m.frame_rate ∧ m.frame_rate ≤ 255 ∧
  m.voltages.map Prod.fst = ["VGH", "VSH1", "VSH2", "VSL", "VCOM"] ∧
  (∀ kv ∈ m.voltages, 0 ≤ kv.2 ∧ kv.2 ≤ 255)

instance (m : Model) : Decidable (ValidModel m) := by
  unfold ValidModel; infer_instance

/-- One iteration of the inner packing loop of `voltage_pattern_to_lut`:
up to four steps are OR-ed into one byte, step 0 of the group at bits 7–6
(`shift = 6 - phase_in_byte * 2`), missing steps contribute nothing. -/
def packByte : List String → Nat
  | [] => 0
  | [a] => vsReverseGet a <<< 6
  | [a, b] => vsReverseGet a <<< 6 ||| vsReverseGet b <<< 4
  | [a, b, c] => vsReverseGet a <<< 6 ||| vsReverseGet b <<< 4 ||| vsReverseGet c <<< 2
  | a :: b :: c :: d :: _ =>
      vsReverseGet a <<< 6 ||| vsReverseGet b <<< 4 ||| vsReverseGet c <<< 2 ||| vsReverseGet d

/-- The outer packing loop: the pattern is consumed four steps per byte;
the last (possibly partial) group still yields one byte.  `packByte` only
reads the first four steps, so feeding it the whole remaining list matches
the source loop. -/
def packBytes : List String → List Nat
  | [] => []
  | a :: b :: c :: d :: rest => packByte (a :: b :: c :: d :: rest) :: packBytes rest
  | l => [packByte l]

/-- The 10-byte VS block one transition occupies: the loop stops after 10
bytes (`byte_idx < 10`) and positions it never wrote keep the `0x00` the
LUT array was initialised with. -/
def patternBlock (pattern : List String) : List Nat :=
  let bs := (packBytes pattern).take 10
  bs ++ List.replicate (10 - bs.length) 0

/-- Source `self.voltage_patterns[trans_idx]`: dict access.  A missing key raises in
Python; under `ValidModel` the keys `0..3` are always present, so the `[]`
default is never exercised. -/
def dictPattern (m : Model) (t : Int) : List String :=
  (m.voltage_patterns.lookup t).getD []

/-- Source `self.voltages[name]`: dict access, same convention as `dictPattern`. -/
def voltOf (m : Model) (name : String) : Int :=
  (m.voltages.lookup name).getD 0

/-- Source `self.timing_groups[group_idx][i]`: list indexing; out-of-range indexing
raises in Python and is defaulted to `0` here (never exercised under
`ValidModel`, which fixes the shape at 10 × 5). -/
def timingField (m : Model) (g i : Nat) : Int :=
  (m.timing_groups.getD g []).getD i 0

/-- Bytes 50–99 of the LUT: ten groups of five bytes, written verbatim from
`self.timing_groups` (`lut[50 + 5 * g + i] = timing_groups[g][i]`). -/
def timingSection (m : Model) : List Int :=
  ((List.range 10).map (fun g => (List.range 5).map (fun i => timingField m g i))).flatten

/-- Bytes 0–39 of the LUT: the four packed transition patterns in transition
order, 10 bytes each (`vs_start = trans_idx * 10`). -/
def vsSection (m : Model) : List Int :=
  (patternBlock (dictPattern m 0)).map Int.ofNat ++
  (patternBlock (dictPattern m 1)).map Int.ofNat ++
  (patternBlock (dictPattern m 2)).map Int.ofNat ++
  (patternBlock (dictPattern m 3)).map Int.ofNat

/-- Bytes 40–111 of the LUT: the untouched L4/VCOM block (stays `0x00`),
the timing groups, the frame-rate byte five times, the five voltage levels
and the two reserved trailing bytes (also untouched `0x00`). -/
def lutTail (m : Model) : List Int :=
  List.replicate 10 0 ++
  timingSection m ++
  List.replicate 5 m.frame_rate ++
  [voltOf m "VGH", voltOf m "VSH1", voltOf m "VSH2", voltOf m "VSL", voltOf m "VCOM"] ++
  [0, 0]

/-- Source `voltage_pattern_to_lut`: the whole 112-byte LUT.  The source fills a
`[0x00] * 112` array section by section; the embedding concatenates the
sections in offset order, which yields the same list. -/
def voltage_pattern_to_lut (m : Model) : List Int :=
  vsSection m ++ lutTail m

/-- The rational `2 ^ s` for an integer exponent `s`. -/
def pow2z (s : Int) : ℚ :=
  if 0 ≤ s then (2 : ℚ) ^ s.toNat else 1 / (2 : ℚ) ^ (-s).toNat

/-- Scaling loop for binary64 rounding: double a positive rational until it
reaches `2^52 = 4503599627370496`, tracking the binary exponent.  The fuel
bounds the loop well past the double exponent range. -/
def fpScaleUp : Nat → ℚ × Int → ℚ × Int
  | 0, p => p
  | fuel + 1, (q, s) =>
      if q < 4503599627370496 then fpScaleUp fuel (q * 2, s - 1) else (q, s)

/-- Scaling loop for binary64 rounding: halve a positive rational until it
drops below `2^53 = 9007199254740992`. -/
def fpScaleDown : Nat → ℚ × Int → ℚ × Int
  | 0, p => p
  | fuel + 1, (q, s) =>
      if 9007199254740992 ≤ q then fpScaleDown fuel (q / 2, s + 1) else (q, s)

/-- The IEEE-754 binary64 value nearest a positive rational (round to
nearest, ties to even), for values in the normal range: the significand is
scaled into `[2^52, 2^53)` and rounded to an integer. -/
def fpRoundPos (q : ℚ) : ℚ :=
  let p := fpScaleDown 1100 (fpScaleUp 1100 (q, 0))
  let n0 : Int := ⌊p.1⌋
  let r : ℚ := p.1 - (n0 : ℚ)
  let n : Int :=
    if 1 / 2 < r then n0 + 1
    else if r < 1 / 2 then n0
    else if n0 % 2 = 0 then n0 else n0 + 1
  (n : ℚ) * pow2z p.2

/-- Correct rounding of an exact rational to a binary64 value (zero and
negative values handled by sign symmetry). -/
def fpRound (q : ℚ) : ℚ :=
  if q = 0 then 0 else if q < 0 then -fpRoundPos (-q) else fpRoundPos q

/-- One IEEE double multiplication: the exact product, rounded once. -/
def fpMul (a b : ℚ) : ℚ := fpRound (a * b)

/-- One IEEE double division: the exact quotient, rounded once. -/
def fpDiv (a b : ℚ) : ℚ := fpRound (a / b)

/-- The double value of the source literal `1.1`. -/
def fpOnePointOne : ℚ := fpRound (11 / 10)

/-- Python `int(x)` on a float: truncation toward zero. -/
def pyTrunc (q : ℚ) : Int :=
  if q < 0 then -⌊-q⌋ else ⌊q⌋

/-- Source `calculate_timing`: total frame count and estimated refresh time.
`sum(group[:4])` is the phase sum, `group[4]` the repeat count; the frame
time is `2500 / frame_rate` (IEEE double division; `50` when the rate is not
positive), clamped below at `10`; the result is
`int(total_frames * ms_per_frame * 1.1)` with each double operation modelled
as exact arithmetic followed by one binary64 rounding, applied left-to-right
as in the source.  (When `ms_per_frame` is the integer `50` or `10` the
source computes `total_frames * ms_per_frame` in exact integer arithmetic;
the model agrees because that product stays far below `2^53` for 8-bit
fields, so its rounding is the identity.) -/
def calculate_timing (m : Model) : Int × Int :=
  let total_frames : Int :=
    (m.timing_groups.map (fun group => (group.take 4).sum * (group.getD 4 0 + 1))).sum
  let ms0 : ℚ := if m.frame_rate > 0 then fpDiv 2500 (m.frame_rate : ℚ) else 50
  let ms_per_frame : ℚ := if ms0 < 10 then 10 else ms0
  (total_frames,
    pyTrunc (fpMul (fpMul (fpRound (total_frames : ℚ)) ms_per_frame) fpOnePointOne))

/-- The outcomes of a rejected pattern edit, named after the spec's error
taxonomy.  The source handlers silently no-op (or let Python raise, for an
out-of-range `pop`); the error value records which rejecting branch ran. -/
inductive EditError where
  | capacityExceeded
  | minimumLengthViolation
  | indexOutOfRange
deriving DecidableEq, Repr

/-- Source `add_voltage`: appends `"VSS"` when the pattern holds fewer than 40
steps; at 40 steps the handler does nothing (the spec's `CapacityExceeded`). -/
def add_voltage (p : List String) : List String × Option EditError :=
  if p.length < 40 then (p ++ ["VSS"], none)
  else (p, some .capacityExceeded)

/-- Source `remove_voltage`: pops the step at `volt_idx` when more than one step
remains; at one step the handler does nothing (`MinimumLengthViolation`);
an out-of-range index makes Python's `list.pop` raise `IndexError`, leaving
the list unchanged (`IndexOutOfRange`). -/
def remove_voltage (p : List String) (volt_idx : Nat) : List String × Option EditError :=
  if p.length > 1 then
    if volt_idx < p.length then (p.eraseIdx volt_idx, none)
    else (p, some .indexOutOfRange)
  else (p, some .minimumLengthViolation)

/-- Source `on_voltage_change`: stores the combo-box value at `volt_idx`
(`self.voltage_patterns[t][v] = combo.get()`); an index with no widget is
ignored by the handler's guard (`IndexOutOfRange`). -/
def on_voltage_change (p : List String) (volt_idx : Nat) (s : String) :
    List String × Option EditError :=
  if volt_idx < p.length then (p.set volt_idx s, none)
  else (p, some .indexOutOfRange)

/-- A pattern-edit request, for stating the length invariant over arbitrary
edit sequences. -/
inductive EditOp where
  | add
  | remove (volt_idx : Nat)
  | setStep (volt_idx : Nat) (s : String)

/-- The pattern produced by one edit request (errors only report; the
resulting pattern is always the first component). -/
def applyEdit (p : List String) : EditOp → List String
  | .add => (add_voltage p).1
  | .remove i => (remove_voltage p i).1
  | .setStep i s => (on_voltage_change p i s).1

/-- The pattern produced by a sequence of edit requests. -/
def applyEdits (p : List String) (ops : List EditOp) : List String :=
  ops.foldl applyEdit p

/-- Python `str.strip()` on the character list of a string. -/
def pyStrip (cs : List Char) : List Char :=
  ((cs.dropWhile Char.isWhitespace).reverse.dropWhile Char.isWhitespace).reverse

/-- One `foldl` step of decimal-digit accumulation. -/
def decDigitsStep : Option Nat → Char → Option Nat
  | none, _ => none
  | some n, c => if c.isDigit then some (10 * n + (c.toNat - 48)) else none

/-- The value of a nonempty all-digit character list; `none` otherwise. -/
def decDigitsVal (cs : List Char) : Option Nat :=
  if cs.isEmpty then none else cs.foldl decDigitsStep (some 0)

/-- Python `int(text)`: surrounding whitespace is ignored, an optional sign
precedes a nonempty digit run; anything else raises `ValueError` (`none`). -/
def pyInt (text : String) : Option Int :=
  match pyStrip text.toList with
  | '-' :: rest => (decDigitsVal rest).map (fun n => -(n : Int))
  | '+' :: rest => (decDigitsVal rest).map (fun n => (n : Int))
  | cs => (decDigitsVal cs).map (fun n => (n : Int))

/-- The value of one hexadecimal digit. -/
def hexDigitVal (c : Char) : Option Nat :=
  if c.isDigit then some (c.toNat - 48)
  else if 'a' ≤ c ∧ c ≤ 'f' then some (c.toNat - 97 + 10)
  else if 'A' ≤ c ∧ c ≤ 'F' then some (c.toNat - 65 + 10)
  else none

/-- One `foldl` step of hexadecimal-digit accumulation. -/
def hexDigitsStep : Option Nat → Char → Option Nat
  | none, _ => none
  | some n, c =>
      match hexDigitVal c with
      | some d => some (16 * n + d)
      | none => none

/-- The value of a nonempty all-hex-digit character list; `none` otherwise. -/
def hexDigitsVal (cs : List Char) : Option Nat :=
  if cs.isEmpty then none else cs.foldl hexDigitsStep (some 0)

/-- Python `int(text, 16)` as used on `0x`-prefixed text: the prefix is
accepted and the remaining digits are read in base 16. -/
def pyIntHex (text : String) : Option Int :=
  match pyStrip text.toList with
  | '0' :: 'x' :: rest => (hexDigitsVal rest).map (fun n => (n : Int))
  | '0' :: 'X' :: rest => (hexDigitsVal rest).map (fun n => (n : Int))
  | cs => (hexDigitsVal cs).map (fun n => (n : Int))

/-- Source `text.startswith("0x") or text.startswith("0X")` on stripped text. -/
def startsWith0x : List Char → Bool
  | '0' :: 'x' :: _ => true
  | '0' :: 'X' :: _ => true
  | _ => false

/-- The parse performed by `on_voltage_setting_change` on one entry:
`text = entry.get().strip()`, then `int(text, 16)` for `0x`/`0X`-prefixed
text and `int(text)` otherwise. -/
def parseVoltageText (text : String) : Option Int :=
  if startsWith0x (pyStrip text.toList) then pyIntHex text else pyInt text

/-- One field update of `on_timing_change`:
`val = int(entries[i].get() or 0)` inside `try/except ValueError`.  Empty
text is falsy, so it parses the literal `0`; a nonempty text that fails to
parse raises and the old value survives. -/
def on_timing_change_field (text : String) (old : Int) : Int :=
  if text = "" then 0
  else
    match pyInt text with
    | some v => v
    | none => old

/-- Source `on_framerate_change`: `int(self.frame_rate_spin.get() or 0x44)` inside
`try/except ValueError` — empty text yields the literal default `0x44`. -/
def on_framerate_change (text : String) (old : Int) : Int :=
  if text = "" then 0x44
  else
    match pyInt text with
    | some v => v
    | none => old

/-- One entry update of `on_voltage_setting_change`: a parsed value is
masked (`val & 0xFF`, i.e. `val mod 256` for Python integers) and stored;
a `ValueError` keeps the old value. -/
def voltage_setting_update (text : String) (old : Int) : Int :=
  match parseVoltageText text with
  | some v => v % 256
  | none => old

/-- Python `dict[k] = v` on an association list: replace in place when the
key exists, append otherwise. -/
def setAssoc (l : List (String × Int)) (k : String) (v : Int) : List (String × Int) :=
  if (l.lookup k).isSome then l.map (fun kv => if kv.1 = k then (k, v) else kv)
  else l ++ [(k, v)]

/-- The fixed iteration order of `self.voltage_entries.items()`. -/
def VOLTAGE_NAMES : List String :=
  ["VGH", "VSH1", "VSH2", "VSL", "VCOM"]

/-- Source `on_voltage_setting_change`: every entry is parsed and, on success,
stored masked to 8 bits; entries that fail to parse are skipped. -/
def on_voltage_setting_change (texts : String → String) (voltages : List (String × Int)) :
    List (String × Int) :=
  VOLTAGE_NAMES.foldl
    (fun acc name =>
      match parseVoltageText (texts name) with
      | some v => setAssoc acc name (v % 256)
      | none => acc)
    voltages

/-- A JSON value as produced by `json.load` on the editor's interchange
documents (the format only uses integers, strings, arrays and objects;
objects keep insertion order, as Python dicts do). -/
inductive JVal where
  | jint (n : Int)
  | jstr (s : String)
  | jarr (xs : List JVal)
  | jobj (fields : List (String × JVal))

/-- Source `save_to_file`'s document: `json.dump` of the four model fields, dict
keys rendered with `str`. -/
def save_to_file (m : Model) : JVal :=
  .jobj
    [("voltage_patterns",
      .jobj (m.voltage_patterns.map (fun kv => (toString kv.1, .jarr (kv.2.map .jstr))))),
     ("timing_groups",
      .jarr (m.timing_groups.map (fun g => .jarr (g.map .jint)))),
     ("frame_rate", .jint m.frame_rate),
     ("voltages", .jobj (m.voltages.map (fun kv => (kv.1, .jint kv.2))))]

/-- The single error `load_from_file` reports: every exception raised inside
its `try` block is caught by one handler and shown as a load failure. -/
inductive LoadError where
  | malformedDocument
deriving DecidableEq, Repr

/-- Source `data["key"]`: object field access; a missing key raises `KeyError`,
subscripting a non-object raises `TypeError` — both are `none` here. -/
def getField : JVal → String → Option JVal
  | .jobj fields, k => fields.lookup k
  | _, _ => none

/-- An array of strings, as stored under one `voltage_patterns` key.  In the
source the value is assigned verbatim and a wrong shape only raises in later
operations; the embedding rejects a wrong shape at decode time instead.  The
claims below only exercise documents whose shapes match. -/
def parseStrings : List JVal → Option (List String)
  | [] => some []
  | .jstr s :: rest => (parseStrings rest).map (fun l => s :: l)
  | _ => none

/-- Source `{int(k): v for k, v in data["voltage_patterns"].items()}`: each key is
parsed with `int` (a failure raises `ValueError` before anything is
assigned), values keep their order. -/
def parsePatternPairs : List (String × JVal) → Option (List (Int × List String))
  | [] => some []
  | (k, .jarr xs) :: rest =>
      match pyInt k, parseStrings xs, parsePatternPairs rest with
      | some ki, some p, some acc => some ((ki, p) :: acc)
      | _, _, _ => none
  | _ => none

/-- The `voltage_patterns` dict comprehension over a whole JSON value. -/
def parsePatternsDict : JVal → Option (List (Int × List String))
  | .jobj fields => parsePatternPairs fields
  | _ => none

/-- An array of integers (one timing group). Shape convention as in
`parseStrings`. -/
def parseInts : List JVal → Option (List Int)
  | [] => some []
  | .jint n :: rest => (parseInts rest).map (fun l => n :: l)
  | _ => none

/-- The `timing_groups` value: an array of integer arrays. -/
def parseIntLists : List JVal → Option (List (List Int))
  | [] => some []
  | .jarr xs :: rest =>
      match parseInts xs, parseIntLists rest with
      | some g, some acc => some (g :: acc)
      | _, _ => none
  | _ => none

/-- The `timing_groups` value over a whole JSON value. -/
def parseTimingGroups : JVal → Option (List (List Int))
  | .jarr xs => parseIntLists xs
  | _ => none

/-- The `frame_rate` value: an integer. -/
def parseIntVal : JVal → Option Int
  | .jint n => some n
  | _ => none

/-- The `voltages` object: names mapped to integers. -/
def parseVoltPairs : List (String × JVal) → Option (List (String × Int))
  | [] => some []
  | (k, .jint n) :: rest => (parseVoltPairs rest).map (fun l => (k, n) :: l)
  | _ => none

/-- The `voltages` value over a whole JSON value. -/
def parseVoltages : JVal → Option (List (String × Int))
  | .jobj fields => parseVoltPairs fields
  | _ => none

/-- The remainder of `load_from_file`'s `try` block after the four
assignments: `reload_voltage_pattern(0..3)` (reads `voltage_patterns[t]` for
`t = 0..3`), the timing-widget loop (reads `timing_groups[g][t]` for
`g < 10, t < 5`), the frame-rate `set`, the voltage-entry loop (indexes
`voltage_entries[name]` for every key of `voltages`) and `update_preview()`
(reads `voltages["VGH"] .. voltages["VCOM"]` and the same pattern/timing
entries).  With the shapes fixed by the typed document model, these steps
raise (`KeyError` / `IndexError`, caught by the same handler) exactly when a
transition key `0..3` is missing, one of the first ten timing groups has
fewer than five fields (or there are fewer than ten groups), or the voltages
key set differs from the five entry names; otherwise they only touch the UI
and succeed. -/
def reload_ui_ok (m : Model) : Bool :=
  ((List.range 4).all fun t => (m.voltage_patterns.lookup (t : Int)).isSome) &&
  ((List.range 10).all fun g => decide (5 ≤ (m.timing_groups.getD g []).length)) &&
  (m.voltages.all fun kv => VOLTAGE_NAMES.contains kv.1) &&
  (VOLTAGE_NAMES.all fun n => (m.voltages.lookup n).isSome)

/-- Source `load_from_file`: the four assignments, followed by the widget
reloads and `update_preview`, all inside one `try`; a failure at any step
leaves every *earlier* assignment applied, because the exception handler
only reports.  The returned model is the state after the run, paired with
the reported error, if any. -/
def load_from_file (m : Model) (data : JVal) : Model × Option LoadError :=
  match getField data "voltage_patterns" with
  | none => (m, some .malformedDocument)
  | some vpj =>
    match parsePatternsDict vpj with
    | none => (m, some .malformedDocument)
    | some vps =>
      let m1 : Model := { m with voltage_patterns := vps }
      match getField data "timing_groups" with
      | none => (m1, some .malformedDocument)
      | some tgj =>
        match parseTimingGroups tgj with
        | none => (m1, some .malformedDocument)
        | some tgs =>
          let m2 : Model := { m1 with timing_groups := tgs }
          match getField data "frame_rate" with
          | none => (m2, some .malformedDocument)
          | some frj =>
            match parseIntVal frj with
            | none => (m2, some .malformedDocument)
            | some fr =>
              let m3 : Model := { m2 with frame_rate := fr }
              match getField data "voltages" with
              | none => (m3, some .malformedDocument)
              | some vsj =>
                match parseVoltages vsj with
                | none => (m3, some .malformedDocument)
                | some vs =>
                  let m4 : Model := { m3 with voltages := vs }
                  if reload_ui_ok m4 then (m4, none) else (m4, some .malformedDocument)

/-- The spec's 2-bit code table, written from the claim's words:
`VSS=00, VSH1=01, VSL=10, VSH2=11`. -/
def specCode (s : String) : Nat :=
  if s = "VSS" then 0
  else if s = "VSH1" then 1
  else if s = "VSL" then 2
  else if s = "VSH2" then 3
  else 0

/-- The spec-side code of step `i` of a pattern; a missing step contributes
`0` bits. -/
def specStepCode (p : List String) (i : Nat) : Nat :=
  match p[i]? with
  | some s => specCode s
  | none => 0

/-- The spec-side packed byte `j` of a pattern: step `4j` of the group in
bits 7–6 down to step `4j+3` in bits 1–0 (most-significant-step-first). -/
def specPackedByte (p : List String) (j : Nat) : Nat :=
  64 * specStepCode p (4 * j) + 16 * specStepCode p (4 * j + 1) +
    4 * specStepCode p (4 * j + 2) + specStepCode p (4 * j + 3)

/-- The spec-side total frame count:
`Σ_{g=0..9} (A_g + B_g + C_g + D_g) × (RP_g + 1)`. -/
def specTotalFrames (m : Model) : Int :=
  ((List.range 10).map (fun g =>
    (timingField m g 0 + timingField m g 1 + timingField m g 2 + timingField m g 3) *
      (timingField m g 4 + 1))).sum

/-- The spec-side per-frame time: `max(2500 / frame_rate, 10)` for a positive
frame rate, `50` otherwise. -/
def specMsPerFrame (m : Model) : ℚ :=
  if m.frame_rate > 0 then max (2500 / (m.frame_rate : ℚ)) 10 else 50

/-- The spec-side estimate: `floor(total_frames × ms_per_frame × 1.1)`. -/
def specEstimatedMs (m : Model) : Int :=
  ⌊(specTotalFrames m : ℚ) * specMsPerFrame m * (11 / 10 : ℚ)⌋

/-- The amended spec-side per-frame time: the claim's `max(2500 / fr, 10)`
with the division performed in double precision. -/
def specMsPerFrameFloat (m : Model) : ℚ :=
  if m.frame_rate > 0 then max (fpDiv 2500 (m.frame_rate : ℚ)) 10 else 50

/-- The amended spec-side estimate: truncation of the double-precision
product `total × ms × 1.1`. -/
def specEstimatedMsFloat (m : Model) : Int :=
  pyTrunc (fpMul (fpMul (fpRound (specTotalFrames m : ℚ)) (specMsPerFrameFloat m)) fpOnePointOne)

/-- Step sanitisation: a name outside the four-symbol set is replaced by
`"VSS"` (the claim: an invalid in-memory value encodes exactly like VSS). -/
def sanitizeStep (s : String) : String :=
  if s ∈ VOLTAGE_OPTIONS then s else "VSS"

/-- The model with every pattern step sanitised. -/
def sanitizeModel (m : Model) : Model :=
  { m with voltage_patterns := m.voltage_patterns.map (fun kv => (kv.1, kv.2.map sanitizeStep)) }

/-- Source `defaultModel` with all ten timing groups zeroed. -/
def zeroTimingModel : Model :=
  { defaultModel with timing_groups := List.replicate 10 [0, 0, 0, 0, 0] }

/-- A valid model at which double arithmetic lands just below an exact
integer: frame rate 19 with one timing group `[4, 5, 0, 0, 18]`
(171 total frames). -/
def floatEdgeModel : Model :=
  { defaultModel with
      timing_groups :=
        [[4, 5, 0, 0, 18], [0, 0, 0, 0, 0], [0, 0, 0, 0, 0], [0, 0, 0, 0, 0],
         [0, 0, 0, 0, 0], [0, 0, 0, 0, 0], [0, 0, 0, 0, 0], [0, 0, 0, 0, 0],
         [0, 0, 0, 0, 0], [0, 0, 0, 0, 0]]
      frame_rate := 19 }

/-- A model whose transition-0 pattern holds the unknown symbolic value
`"FOO"` (unreachable under correct construction, still encodable). -/
def badStepModel : Model :=
  { defaultModel with
      voltage_patterns := [(0, ["FOO"]), (1, ["VSS"]), (2, ["VSS"]), (3, ["VSS"])] }

theorem vsReverseGet_lt_four (s : String) : vsReverseGet s < 4 := by
  unfold vsReverseGet VS_REVERSE
  by_cases h1 : s = "VSS"
  · subst h1; decide
  by_cases h2 : s = "VSH1"
  · subst h2; decide
  by_cases h3 : s = "VSL"
  · subst h3; decide
  by_cases h4 : s = "VSH2"
  · subst h4; decide
  simp [List.lookup, beq_eq_false_iff_ne.mpr h1, beq_eq_false_iff_ne.mpr h2,
    beq_eq_false_iff_ne.mpr h3, beq_eq_false_iff_ne.mpr h4]

theorem lor_pack : ∀ a < 4, ∀ b < 4, ∀ c < 4, ∀ d < 4,
    a <<< 6 ||| b <<< 4 ||| c <<< 2 ||| d = 64 * a + 16 * b + 4 * c + d := by
  decide

theorem packBytes_length : ∀ p : List String, (packBytes p).length = (p.length + 3) / 4 := by
  intro p
  induction p using packBytes.induct with
  | case1 => rfl
  | case2 a b c d rest ih =>
      simp only [packBytes, List.length_cons, ih]
      omega
  | case3 l h1 h2 =>
      rcases l with _ | ⟨a, _ | ⟨b, _ | ⟨c, _ | ⟨d, rest⟩⟩⟩⟩
      · exact absurd rfl h1
      · simp [packBytes]
      · simp [packBytes]
      · simp [packBytes]
      · exact absurd rfl (h2 a b c d rest)

theorem packBytes_getD (j : Nat) :
    ∀ p : List String, (packBytes p).getD j 0 = packByte (p.drop (4 * j)) := by
  induction j with
  | zero =>
      intro p
      rcases p with _ | ⟨a, _ | ⟨b, _ | ⟨c, _ | ⟨d, rest⟩⟩⟩⟩ <;> rfl
  | succ j ih =>
      intro p
      have h4succ : 4 * (j + 1) = 4 + 4 * j := by ring
      rcases p with _ | ⟨a, _ | ⟨b, _ | ⟨c, _ | ⟨d, rest⟩⟩⟩⟩
      · rfl
      · simp only [packBytes, List.getD_cons_succ, List.getD_nil]
        rw [List.drop_eq_nil_of_le (by simp; omega)]
        rfl
      · simp only [packBytes, List.getD_cons_succ, List.getD_nil]
        rw [List.drop_eq_nil_of_le (by simp; omega)]
        rfl
      · simp only [packBytes, List.getD_cons_succ, List.getD_nil]
        rw [List.drop_eq_nil_of_le (by simp; omega)]
        rfl
      · simp only [packBytes, List.getD_cons_succ]
        rw [ih rest, h4succ, ← List.drop_drop]
        rfl

theorem patternBlock_length (p : List String) : (patternBlock p).length = 10 := by
  unfold patternBlock
  simp only [List.length_append, List.length_replicate, List.length_take]
  omega

theorem getD_replicate_zero {α : Type} [Zero α] (k i : Nat) :
    (List.replicate k (0 : α)).getD i 0 = 0 := by
  rw [List.getD_eq_getD_get?, List.get?_eq_getElem?]
  simp

theorem patternBlock_getD (p : List String) (j : Nat) :
    (patternBlock p).getD j 0 = if j < 10 then packByte (p.drop (4 * j)) else 0 := by
  have hlen : ((packBytes p).take 10).length = min 10 (packBytes p).length := by
    simp [List.length_take]
  by_cases hj : j < 10
  · rw [if_pos hj]
    by_cases hb : j < ((packBytes p).take 10).length
    · rw [patternBlock, List.getD_append _ _ _ _ hb]
      rw [List.getD_eq_getD_get?, List.get?_eq_getElem?, List.getElem?_take, if_pos hj,
        ← List.get?_eq_getElem?, ← List.getD_eq_getD_get?]
      exact packBytes_getD j p
    · rw [patternBlock, List.getD_append_right _ _ _ _ (Nat.le_of_not_lt hb)]
      have hge : (packBytes p).length ≤ j := by
        rw [hlen] at hb; omega
      have hple : p.length ≤ 4 * j := by
        rw [packBytes_length] at hge; omega
      rw [List.drop_eq_nil_of_le hple, getD_replicate_zero]
      rfl
  · rw [if_neg hj]
    exact List.getD_eq_default _ _ (by rw [patternBlock_length]; omega)

theorem vsReverseGet_unknown (s : String) (hs : s ∉ VOLTAGE_OPTIONS) : vsReverseGet s = 0 := by
  unfold vsReverseGet VS_REVERSE
  simp only [VOLTAGE_OPTIONS, List.mem_cons, List.not_mem_nil, or_false, not_or] at hs
  obtain ⟨h1, h2, h3, h4⟩ := hs
  simp [List.lookup, beq_eq_false_iff_ne.mpr h1, beq_eq_false_iff_ne.mpr h2,
    beq_eq_false_iff_ne.mpr h3, beq_eq_false_iff_ne.mpr h4]

theorem specCode_eq_vsReverseGet (s : String) (hs : s ∈ VOLTAGE_OPTIONS) :
    specCode s = vsReverseGet s := by
  simp only [VOLTAGE_OPTIONS, List.mem_cons, List.not_mem_nil, or_false] at hs
  rcases hs with rfl | rfl | rfl | rfl <;> decide

theorem packByte_eq_spec (l : List String) (hmem : ∀ s ∈ l, s ∈ VOLTAGE_OPTIONS) :
    packByte l =
      64 * specStepCode l 0 + 16 * specStepCode l 1 + 4 * specStepCode l 2 + specStepCode l 3 := by
  rcases l with _ | ⟨a, _ | ⟨b, _ | ⟨c, _ | ⟨d, rest⟩⟩⟩⟩
  · rfl
  · have ha := specCode_eq_vsReverseGet a (hmem a (by simp))
    simp [packByte, specStepCode, ha, Nat.shiftLeft_eq]
    ring
  · have ha := specCode_eq_vsReverseGet a (hmem a (by simp))
    have hb := specCode_eq_vsReverseGet b (hmem b (by simp))
    have h := lor_pack (vsReverseGet a) (vsReverseGet_lt_four a)
      (vsReverseGet b) (vsReverseGet_lt_four b) 0 (by decide) 0 (by decide)
    simp only [Nat.zero_shiftLeft, Nat.or_zero, Nat.mul_zero, Nat.add_zero] at h
    simp [packByte, specStepCode, ha, hb, h]
  · have ha := specCode_eq_vsReverseGet a (hmem a (by simp))
    have hb := specCode_eq_vsReverseGet b (hmem b (by simp))
    have hc := specCode_eq_vsReverseGet c (hmem c (by simp))
    have h := lor_pack (vsReverseGet a) (vsReverseGet_lt_four a)
      (vsReverseGet b) (vsReverseGet_lt_four b)
      (vsReverseGet c) (vsReverseGet_lt_four c) 0 (by decide)
    simp only [Nat.or_zero, Nat.add_zero] at h
    simp [packByte, specStepCode, ha, hb, hc, h]
  · have ha := specCode_eq_vsReverseGet a (hmem a (by simp))
    have hb := specCode_eq_vsReverseGet b (hmem b (by simp))
    have hc := specCode_eq_vsReverseGet c (hmem c (by simp))
    have hd := specCode_eq_vsReverseGet d (hmem d (by simp))
    have h := lor_pack (vsReverseGet a) (vsReverseGet_lt_four a)
      (vsReverseGet b) (vsReverseGet_lt_four b)
      (vsReverseGet c) (vsReverseGet_lt_four c)
      (vsReverseGet d) (vsReverseGet_lt_four d)
    simp [packByte, specStepCode, ha, hb, hc, hd, h]

theorem patternBlock_eq_spec (p : List String) (hmem : ∀ s ∈ p, s ∈ VOLTAGE_OPTIONS)
    (h40 : p.length ≤ 40) (j : Nat) :
    (patternBlock p).getD j 0 = specPackedByte p j := by
  rw [patternBlock_getD]
  by_cases hj : j < 10
  · rw [if_pos hj]
    have hmem' : ∀ s ∈ p.drop (4 * j), s ∈ VOLTAGE_OPTIONS :=
      fun s hs => hmem s (List.mem_of_mem_drop hs)
    rw [packByte_eq_spec _ hmem']
    have hstep : ∀ i, specStepCode (p.drop (4 * j)) i = specStepCode p (4 * j + i) := by
      intro i; unfold specStepCode; rw [List.getElem?_drop]
    rw [hstep 0, hstep 1, hstep 2, hstep 3]
    unfold specPackedByte
    norm_num
  · rw [if_neg hj]
    have hnone : ∀ i, 4 * j ≤ i → p[i]? = none := by
      intro i hi
      exact List.getElem?_eq_none (by omega)
    unfold specPackedByte specStepCode
    rw [hnone (4 * j) (by omega), hnone (4 * j + 1) (by omega),
      hnone (4 * j + 2) (by omega), hnone (4 * j + 3) (by omega)]
    rfl

theorem getD_map_ofNat (l : List Nat) (n : Nat) :
    (l.map Int.ofNat).getD n 0 = Int.ofNat (l.getD n 0) := by
  rw [List.getD_eq_getD_get?, List.getD_eq_getD_get?, List.get?_eq_getElem?,
    List.get?_eq_getElem?, List.getElem?_map]
  cases l[n]? <;> rfl

theorem vsSection_length (m : Model) : (vsSection m).length = 40 := by
  simp [vsSection, patternBlock_length]

theorem lut_length (m : Model) : (voltage_pattern_to_lut m).length = 112 := by
  have ht : (timingSection m).length = 50 := rfl
  simp [voltage_pattern_to_lut, vsSection_length, lutTail, ht]

theorem lutTail_eq (m : Model) :
    lutTail m =
      [0, 0, 0, 0, 0, 0, 0, 0, 0, 0,
       timingField m 0 0, timingField m 0 1, timingField m 0 2, timingField m 0 3, timingField m 0 4,
       timingField m 1 0, timingField m 1 1, timingField m 1 2, timingField m 1 3, timingField m 1 4,
       timingField m 2 0, timingField m 2 1, timingField m 2 2, timingField m 2 3, timingField m 2 4,
       timingField m 3 0, timingField m 3 1, timingField m 3 2, timingField m 3 3, timingField m 3 4,
       timingField m 4 0, timingField m 4 1, timingField m 4 2, timingField m 4 3, timingField m 4 4,
       timingField m 5 0, timingField m 5 1, timingField m 5 2, timingField m 5 3, timingField m 5 4,
       timingField m 6 0, timingField m 6 1, timingField m 6 2, timingField m 6 3, timingField m 6 4,
       timingField m 7 0, timingField m 7 1, timingField m 7 2, timingField m 7 3, timingField m 7 4,
       timingField m 8 0, timingField m 8 1, timingField m 8 2, timingField m 8 3, timingField m 8 4,
       timingField m 9 0, timingField m 9 1, timingField m 9 2, timingField m 9 3, timingField m 9 4,
       m.frame_rate, m.frame_rate, m.frame_rate, m.frame_rate, m.frame_rate,
       voltOf m "VGH", voltOf m "VSH1", voltOf m "VSH2", voltOf m "VSL", voltOf m "VCOM",
       0, 0] := rfl

theorem lut_getD_tail (m : Model) (k : Nat) (hk : 40 ≤ k) :
    (voltage_pattern_to_lut m).getD k 0 = (lutTail m).getD (k - 40) 0 := by
  unfold voltage_pattern_to_lut
  rw [List.getD_append_right _ _ _ _ (by rw [vsSection_length]; exact hk), vsSection_length]

theorem lut_getD_vs (m : Model) (t j : Nat) (ht : t < 4) (hj : j < 10) :
    (voltage_pattern_to_lut m).getD (10 * t + j) 0 =
      Int.ofNat ((patternBlock (dictPattern m (t : Int))).getD j 0) := by
  have hBlen : ∀ p : List String, ((patternBlock p).map Int.ofNat).length = 10 := by
    intro p; simp [patternBlock_length]
  unfold voltage_pattern_to_lut vsSection
  simp only [List.append_assoc]
  interval_cases t
  · rw [List.getD_append _ _ _ _ (by rw [hBlen]; omega)]
    have he : 10 * 0 + j = j := by omega
    rw [he, getD_map_ofNat]
    norm_num
  · rw [List.getD_append_right _ _ _ _ (by rw [hBlen]; omega), hBlen]
    rw [List.getD_append _ _ _ _ (by rw [hBlen]; omega)]
    have he : 10 * 1 + j - 10 = j := by omega
    rw [he, getD_map_ofNat]
    norm_num
  · rw [List.getD_append_right _ _ _ _ (by rw [hBlen]; omega), hBlen]
    rw [List.getD_append_right _ _ _ _ (by rw [hBlen]; omega), hBlen]
    rw [List.getD_append _ _ _ _ (by rw [hBlen]; omega)]
    have he : 10 * 2 + j - 10 - 10 = j := by omega
    rw [he, getD_map_ofNat]
    norm_num
  · rw [List.getD_append_right _ _ _ _ (by rw [hBlen]; omega), hBlen]
    rw [List.getD_append_right _ _ _ _ (by rw [hBlen]; omega), hBlen]
    rw [List.getD_append_right _ _ _ _ (by rw [hBlen]; omega), hBlen]
    rw [List.getD_append _ _ _ _ (by rw [hBlen]; omega)]
    have he : 10 * 3 + j - 10 - 10 - 10 = j := by omega
    rw [he, getD_map_ofNat]
    norm_num

/-- Claim C1: for every valid WaveformModel the encoder returns exactly 112
bytes with bytes 0–39 the four packed transition patterns in fixed order (10
bytes each), bytes 40–49 all zero, bytes 50–99 the ten timing groups verbatim
in group order with field order A,B,C,D,RP, bytes 100–104 the frame-rate byte
five times, bytes 105–109 the values VGH, VSH1, VSH2, VSL, VCOM verbatim, and
bytes 110–111 zero. -/
theorem claim_C1_lut_layout (m : Model) (h : ValidModel m) :
    (voltage_pattern_to_lut m).length = 112 ∧
    (∀ t, t < 4 → ∀ j, j < 10 →
      (voltage_pattern_to_lut m).getD (10 * t + j) 0 =
        Int.ofNat ((patternBlock (dictPattern m (t : Int))).getD j 0)) ∧
    (∀ k, 40 ≤ k → k ≤ 49 → (voltage_pattern_to_lut m).getD k 0 = 0) ∧
    (∀ g, g < 10 → ∀ i, i < 5 →
      (voltage_pattern_to_lut m).getD (50 + 5 * g + i) 0 = timingField m g i) ∧
    (∀ i, i < 5 → (voltage_pattern_to_lut m).getD (100 + i) 0 = m.frame_rate) ∧
    ((voltage_pattern_to_lut m).getD 105 0 = voltOf m "VGH" ∧
     (voltage_pattern_to_lut m).getD 106 0 = voltOf m "VSH1" ∧
     (voltage_pattern_to_lut m).getD 107 0 = voltOf m "VSH2" ∧
     (voltage_pattern_to_lut m).getD 108 0 = voltOf m "VSL" ∧
     (voltage_pattern_to_lut m).getD 109 0 = voltOf m "VCOM") ∧
    ((voltage_pattern_to_lut m).getD 110 0 = 0 ∧
     (voltage_pattern_to_lut m).getD 111 0 = 0) := by
  refine ⟨lut_length m, fun t ht j hj => lut_getD_vs m t j ht hj, ?_, ?_, ?_, ?_, ?_⟩
  · intro k hk1 hk2
    interval_cases k <;> (rw [lut_getD_tail m _ (by norm_num), lutTail_eq]; rfl)
  · intro g hg i hi
    interval_cases g <;> interval_cases i <;>
      (rw [lut_getD_tail m _ (by norm_num), lutTail_eq]; rfl)
  · intro i hi
    interval_cases i <;> (rw [lut_getD_tail m _ (by norm_num), lutTail_eq]; rfl)
  · refine ⟨?_, ?_, ?_, ?_, ?_⟩ <;> (rw [lut_getD_tail m _ (by norm_num), lutTail_eq]; rfl)
  · refine ⟨?_, ?_⟩ <;> (rw [lut_getD_tail m _ (by norm_num), lutTail_eq]; rfl)

theorem claim_C1_lut_layout_witness :
    ValidModel defaultModel ∧ (voltage_pattern_to_lut defaultModel).length = 112 :=
  ⟨by decide, (claim_C1_lut_layout defaultModel (by decide)).1⟩

/-- Claim C2: every 1–40 step pattern is packed four steps per byte with the
2-bit codes VSS=00, VSH1=01, VSL=10, VSH2=11, step 0 of each group of four in
bits 7–6 and step 3 in bits 1–0; unfilled slots and all bytes past
`ceil(length / 4)` are zero; in particular `[VSS, VSH1, VSS, VSH1]` packs to
the byte `0x11` and `[VSL, VSL, VSL, VSS]` to `0xA8`. -/
theorem claim_C2_pattern_packing (p : List String) (hmem : ∀ s ∈ p, s ∈ VOLTAGE_OPTIONS)
    (h1 : 1 ≤ p.length) (h40 : p.length ≤ 40) :
    (∀ j, (patternBlock p).getD j 0 = specPackedByte p j) ∧
    (∀ j, (p.length + 3) / 4 ≤ j → (patternBlock p).getD j 0 = 0) ∧
    patternBlock ["VSS", "VSH1", "VSS", "VSH1"] = [0x11, 0, 0, 0, 0, 0, 0, 0, 0, 0] ∧
    patternBlock ["VSL", "VSL", "VSL", "VSS"] = [0xA8, 0, 0, 0, 0, 0, 0, 0, 0, 0] := by
  refine ⟨fun j => patternBlock_eq_spec p hmem h40 j, fun j hj => ?_, by decide, by decide⟩
  rw [patternBlock_getD]
  by_cases hj10 : j < 10
  · rw [if_pos hj10, List.drop_eq_nil_of_le (by omega)]
    rfl
  · rw [if_neg hj10]

theorem claim_C2_pattern_packing_witness :
    (patternBlock ["VSS", "VSH1", "VSS", "VSH1"]).getD 0 0 =
      specPackedByte ["VSS", "VSH1", "VSS", "VSH1"] 0 :=
  (claim_C2_pattern_packing ["VSS", "VSH1", "VSS", "VSH1"]
    (by decide) (by decide) (by decide)).1 0

theorem take4_sum (g : List Int) :
    (g.take 4).sum = g.getD 0 0 + g.getD 1 0 + g.getD 2 0 + g.getD 3 0 := by
  rcases g with _ | ⟨a, _ | ⟨b, _ | ⟨c, _ | ⟨d, rest⟩⟩⟩⟩ <;> simp [List.getD] <;> ring

theorem map_sum_eq_range_getD (l : List (List Int)) (f : List Int → Int) :
    (l.map f).sum = ((List.range l.length).map (fun g => f (l.getD g []))).sum := by
  induction l with
  | nil => rfl
  | cons a t ih =>
      rw [List.length_cons, List.range_succ_eq_map]
      simp only [List.map_cons, List.map_map, List.sum_cons, List.getD_cons_zero]
      rw [ih]
      have hpt : List.map (fun g => f (t.getD g [])) (List.range t.length) =
          List.map ((fun g => f ((a :: t).getD g [])) ∘ Nat.succ) (List.range t.length) :=
        List.map_congr_left (fun g hg => by simp [Function.comp, List.getD_cons_succ])
      rw [hpt]

/-- Claim C4 counterexample: at the valid model with frame rate 19 and one
timing group `[4, 5, 0, 0, 18]` (171 total frames) the program evaluates
`int(171 * (2500 / 19) * 1.1)` in double arithmetic to
`int(24749.999999999996) = 24749`, while the claimed formula
`floor(total_frames × ms_per_frame × 1.1)` gives `24750`. -/
theorem claim_C4_counterexample :
    ValidModel floatEdgeModel ∧
    calculate_timing floatEdgeModel = (171, 24749) ∧
    specEstimatedMs floatEdgeModel = 24750 ∧ (24749 : Int) ≠ 24750 :=
  ⟨by decide, by with_unfolding_all decide, by with_unfolding_all decide, by decide⟩

/-- Claim C4 (amended): for every valid WaveformModel the estimator returns
`total_frames = Σ_{g=0..9} (A_g + B_g + C_g + D_g) × (RP_g + 1)` and
`estimated_ms` equal to the truncation of the double-precision product
`total_frames ⊛ ms_per_frame ⊛ 1.1`, where `ms_per_frame` is
`max(2500 ⊘ frame_rate, 10)` (double division) for a positive frame rate and
`50` for frame rate zero; the double-rounded result can fall one below the
exact floor (24749 versus 24750 above).  With all ten groups zero the result
is `(0, 0)`. -/
theorem claim_C4_amended_timing (m : Model) (h : ValidModel m) :
    calculate_timing m = (specTotalFrames m, specEstimatedMsFloat m) ∧
    ((∀ g ∈ m.timing_groups, ∀ x ∈ g, x = 0) → calculate_timing m = (0, 0)) := by
  obtain ⟨-, -, hlen, -⟩ := h
  have h1 : (calculate_timing m).1 =
      (m.timing_groups.map (fun group => (group.take 4).sum * (group.getD 4 0 + 1))).sum := rfl
  have h2 : (calculate_timing m).2 =
      pyTrunc (fpMul (fpMul (fpRound
          ((((m.timing_groups.map
              (fun group => (group.take 4).sum * (group.getD 4 0 + 1))).sum : Int) : ℚ)))
        (if (if m.frame_rate > 0 then fpDiv 2500 (m.frame_rate : ℚ) else 50) < 10 then (10 : ℚ)
         else (if m.frame_rate > 0 then fpDiv 2500 (m.frame_rate : ℚ) else 50)))
        fpOnePointOne) := rfl
  have htotal :
      (m.timing_groups.map (fun group => (group.take 4).sum * (group.getD 4 0 + 1))).sum =
        specTotalFrames m := by
    rw [map_sum_eq_range_getD, hlen]
    unfold specTotalFrames
    refine congrArg List.sum (List.map_congr_left ?_)
    intro g hg
    rw [take4_sum]
    rfl
  have hms :
      (if (if m.frame_rate > 0 then fpDiv 2500 (m.frame_rate : ℚ) else 50) < 10 then (10 : ℚ)
       else (if m.frame_rate > 0 then fpDiv 2500 (m.frame_rate : ℚ) else 50)) =
        specMsPerFrameFloat m := by
    unfold specMsPerFrameFloat
    by_cases hfr : m.frame_rate > 0
    · rw [if_pos hfr, if_pos hfr]
      rcases lt_or_le (fpDiv 2500 (m.frame_rate : ℚ)) 10 with hq | hq
      · rw [if_pos hq, max_eq_right hq.le]
      · rw [if_neg (not_lt.mpr hq), max_eq_left hq]
    · rw [if_neg hfr, if_neg hfr]
      norm_num
  constructor
  · rw [Prod.ext_iff]
    refine ⟨?_, ?_⟩
    · rw [h1, htotal]
    · rw [h2, hms, htotal]
      rfl
  · intro hz
    have hzt :
        (m.timing_groups.map (fun group => (group.take 4).sum * (group.getD 4 0 + 1))).sum = 0 := by
      refine List.sum_eq_zero ?_
      intro x hx
      obtain ⟨g, hg, rfl⟩ := List.mem_map.mp hx
      have hz4 : (g.take 4).sum = 0 :=
        List.sum_eq_zero (fun y hy => hz g hg y (List.mem_of_mem_take hy))
      rw [hz4, zero_mul]
    rw [Prod.ext_iff]
    refine ⟨?_, ?_⟩
    · rw [h1, hzt]
    · rw [h2, hzt]
      simp [fpMul, fpRound, pyTrunc]

theorem claim_C4_amended_timing_witness :
    calculate_timing defaultModel =
      (specTotalFrames defaultModel, specEstimatedMsFloat defaultModel) ∧
    calculate_timing zeroTimingModel = (0, 0) :=
  ⟨(claim_C4_amended_timing defaultModel (by decide)).1,
   (claim_C4_amended_timing zeroTimingModel (by decide)).2 (by decide)⟩

theorem applyEdit_len (p : List String) (op : EditOp) (h1 : 1 ≤ p.length)
    (h40 : p.length ≤ 40) : 1 ≤ (applyEdit p op).length ∧ (applyEdit p op).length ≤ 40 := by
  cases op with
  | add =>
      show 1 ≤ (add_voltage p).1.length ∧ (add_voltage p).1.length ≤ 40
      have hlen : (p ++ ["VSS"]).length = p.length + 1 := by simp
      by_cases hlt : p.length < 40
      · rw [add_voltage, if_pos hlt]
        show 1 ≤ (p ++ ["VSS"]).length ∧ (p ++ ["VSS"]).length ≤ 40
        omega
      · rw [add_voltage, if_neg hlt]
        exact ⟨h1, h40⟩
  | remove i =>
      show 1 ≤ (remove_voltage p i).1.length ∧ (remove_voltage p i).1.length ≤ 40
      have hlen := List.length_eraseIdx p i
      by_cases hg : p.length > 1
      · by_cases hi : i < p.length
        · rw [remove_voltage, if_pos hg, if_pos hi]
          show 1 ≤ (p.eraseIdx i).length ∧ (p.eraseIdx i).length ≤ 40
          rw [if_pos hi] at hlen
          omega
        · rw [remove_voltage, if_pos hg, if_neg hi]
          exact ⟨h1, h40⟩
      · rw [remove_voltage, if_neg hg]
        exact ⟨h1, h40⟩
  | setStep i s =>
      show 1 ≤ (on_voltage_change p i s).1.length ∧ (on_voltage_change p i s).1.length ≤ 40
      have hlen := List.length_set p i s
      by_cases hi : i < p.length
      · rw [on_voltage_change, if_pos hi]
        show 1 ≤ (p.set i s).length ∧ (p.set i s).length ≤ 40
        omega
      · rw [on_voltage_change, if_neg hi]
        exact ⟨h1, h40⟩

/-- Claim C5: across every sequence of append/remove/set edits the pattern
length stays within 1..40; appending at 40 steps is a no-op reporting
`CapacityExceeded` and removing at 1 step is a no-op reporting
`MinimumLengthViolation` (neither raises). -/
theorem claim_C5_length_invariant :
    (∀ p ops, 1 ≤ p.length → p.length ≤ 40 →
      1 ≤ (applyEdits p ops).length ∧ (applyEdits p ops).length ≤ 40) ∧
    (∀ p, p.length = 40 → add_voltage p = (p, some EditError.capacityExceeded)) ∧
    (∀ p i, p.length = 1 → remove_voltage p i = (p, some EditError.minimumLengthViolation)) := by
  refine ⟨?_, ?_, ?_⟩
  · intro p ops
    induction ops generalizing p with
    | nil => exact fun h1 h40 => ⟨h1, h40⟩
    | cons op rest ih =>
        intro h1 h40
        have hstep := applyEdit_len p op h1 h40
        exact ih _ hstep.1 hstep.2
  · intro p hp
    unfold add_voltage
    rw [if_neg (by omega)]
  · intro p i hp
    unfold remove_voltage
    rw [if_neg (by omega)]

theorem claim_C5_length_invariant_witness :
    (1 ≤ (applyEdits ["VSS"] [EditOp.add, EditOp.remove 5, EditOp.remove 0]).length ∧
      (applyEdits ["VSS"] [EditOp.add, EditOp.remove 5, EditOp.remove 0]).length ≤ 40) ∧
    add_voltage (List.replicate 40 "VSS") =
      (List.replicate 40 "VSS", some EditError.capacityExceeded) ∧
    remove_voltage ["VSS"] 0 = (["VSS"], some EditError.minimumLengthViolation) :=
  ⟨claim_C5_length_invariant.1 ["VSS"] [EditOp.add, EditOp.remove 5, EditOp.remove 0]
      (by decide) (by decide),
   claim_C5_length_invariant.2.1 (List.replicate 40 "VSS") (by decide),
   claim_C5_length_invariant.2.2 ["VSS"] 0 (by decide)⟩

/-- Claim C9: on a pattern of more than one step, removal at an index at or
past the length reports `IndexOutOfRange` (Python's raised `IndexError`,
modelled as an error value) and leaves the pattern unchanged; on a one-step
pattern removal reports `MinimumLengthViolation` whatever the index. -/
theorem claim_C9_remove_errors (p : List String) (i : Nat) :
    (1 < p.length → p.length ≤ i → remove_voltage p i = (p, some EditError.indexOutOfRange)) ∧
    (p.length = 1 → remove_voltage p i = (p, some EditError.minimumLengthViolation)) := by
  constructor
  · intro hl hi
    unfold remove_voltage
    rw [if_pos (by omega), if_neg (by omega)]
  · intro hl
    unfold remove_voltage
    rw [if_neg (by omega)]

theorem claim_C9_remove_errors_witness :
    remove_voltage ["VSS", "VSH1"] 5 = (["VSS", "VSH1"], some EditError.indexOutOfRange) ∧
    remove_voltage ["VSS"] 3 = (["VSS"], some EditError.minimumLengthViolation) :=
  ⟨(claim_C9_remove_errors ["VSS", "VSH1"] 5).1 (by decide) (by decide),
   (claim_C9_remove_errors ["VSS"] 3).2 (by decide)⟩

theorem vsReverseGet_sanitize (s : String) : vsReverseGet (sanitizeStep s) = vsReverseGet s := by
  unfold sanitizeStep
  by_cases hs : s ∈ VOLTAGE_OPTIONS
  · rw [if_pos hs]
  · rw [if_neg hs, vsReverseGet_unknown s hs]
    decide

theorem packByte_map_sanitize (l : List String) :
    packByte (l.map sanitizeStep) = packByte l := by
  rcases l with _ | ⟨a, _ | ⟨b, _ | ⟨c, _ | ⟨d, rest⟩⟩⟩⟩ <;>
    simp [packByte, vsReverseGet_sanitize]

theorem packBytes_map_sanitize (l : List String) :
    packBytes (l.map sanitizeStep) = packBytes l := by
  induction l using packBytes.induct with
  | case1 => rfl
  | case2 a b c d rest ih =>
      show packByte ((a :: b :: c :: d :: rest).map sanitizeStep) ::
          packBytes (rest.map sanitizeStep) =
        packByte (a :: b :: c :: d :: rest) :: packBytes rest
      rw [packByte_map_sanitize, ih]
  | case3 l h1 h2 =>
      rcases l with _ | ⟨a, _ | ⟨b, _ | ⟨c, _ | ⟨d, rest⟩⟩⟩⟩
      · exact absurd rfl h1
      · show [packByte ([a].map sanitizeStep)] = [packByte [a]]
        rw [packByte_map_sanitize]
      · show [packByte ([a, b].map sanitizeStep)] = [packByte [a, b]]
        rw [packByte_map_sanitize]
      · show [packByte ([a, b, c].map sanitizeStep)] = [packByte [a, b, c]]
        rw [packByte_map_sanitize]
      · exact absurd rfl (h2 a b c d rest)

theorem patternBlock_map_sanitize (p : List String) :
    patternBlock (p.map sanitizeStep) = patternBlock p := by
  unfold patternBlock
  rw [packBytes_map_sanitize]

theorem lookup_map_snd (l : List (Int × List String)) (t : Int) (f : List String → List String) :
    ((l.map (fun kv => (kv.1, f kv.2))).lookup t) = (l.lookup t).map f := by
  induction l with
  | nil => rfl
  | cons kv rest ih =>
      rcases kv with ⟨k, v⟩
      by_cases hk : t = k
      · subst hk
        simp [List.lookup]
      · simp [List.lookup, beq_eq_false_iff_ne.mpr hk, ih]

theorem dictPattern_sanitize (m : Model) (t : Int) :
    dictPattern (sanitizeModel m) t = (dictPattern m t).map sanitizeStep := by
  unfold dictPattern sanitizeModel
  rw [lookup_map_snd]
  cases m.voltage_patterns.lookup t <;> rfl

/-- Claim C6: the encoder is total and deterministic for any model (always a
112-byte result), and a pattern step whose symbolic value lies outside the
four-name set encodes exactly as `VSS` (code 0): sanitising such steps to
`"VSS"` leaves the encoded LUT unchanged, and the defensive lookup maps every
unknown name to code 0. -/
theorem claim_C6_defensive_encoding (m : Model) :
    voltage_pattern_to_lut (sanitizeModel m) = voltage_pattern_to_lut m ∧
    (voltage_pattern_to_lut m).length = 112 ∧
    (∀ s, s ∉ VOLTAGE_OPTIONS → vsReverseGet s = 0) := by
  refine ⟨?_, lut_length m, fun s hs => vsReverseGet_unknown s hs⟩
  unfold voltage_pattern_to_lut vsSection
  rw [dictPattern_sanitize, dictPattern_sanitize, dictPattern_sanitize, dictPattern_sanitize,
    patternBlock_map_sanitize, patternBlock_map_sanitize, patternBlock_map_sanitize,
    patternBlock_map_sanitize]
  rfl

theorem claim_C6_defensive_encoding_witness :
    voltage_pattern_to_lut (sanitizeModel badStepModel) = voltage_pattern_to_lut badStepModel ∧
    vsReverseGet "FOO" = 0 :=
  ⟨(claim_C6_defensive_encoding badStepModel).1,
   (claim_C6_defensive_encoding badStepModel).2.2 "FOO" (by decide)⟩

/-- Claim C8 counterexample: on a timing field, empty edit text does not keep
the previous value 4 — `int(entries[i].get() or 0)` turns empty text into 0;
on the frame rate, empty text applies the default `0x44` (68). -/
theorem claim_C8_counterexample :
    on_timing_change_field "" 4 = 0 ∧ (0 : Int) ≠ 4 ∧ on_framerate_change "" 7 = 68 :=
  ⟨rfl, by decide, rfl⟩

/-- Claim C8 (amended): a nonempty edit text that fails integer parsing
leaves the previous value in place for timing fields, the frame rate and the
voltage levels, and a voltage level also keeps its previous value on empty
text; but empty text sets a timing field to 0 and the frame rate to the
default 0x44 (68), because `text or default` substitutes the default before
parsing. -/
theorem claim_C8_amended_parse_failures :
    (∀ text old, text ≠ "" → pyInt text = none → on_timing_change_field text old = old) ∧
    (∀ old, on_timing_change_field "" old = 0) ∧
    (∀ text old, text ≠ "" → pyInt text = none → on_framerate_change text old = old) ∧
    (∀ old, on_framerate_change "" old = 68) ∧
    (∀ text old, parseVoltageText text = none → voltage_setting_update text old = old) ∧
    parseVoltageText "" = none := by
  refine ⟨?_, fun old => rfl, ?_, fun old => rfl, ?_, by decide⟩
  · intro text old ht hp
    unfold on_timing_change_field
    rw [if_neg ht, hp]
  · intro text old ht hp
    unfold on_framerate_change
    rw [if_neg ht, hp]
  · intro text old hp
    unfold voltage_setting_update
    rw [hp]

theorem claim_C8_amended_parse_failures_witness :
    on_timing_change_field "abc" 4 = 4 ∧ on_framerate_change "abc" 7 = 7 ∧
      voltage_setting_update "zz" 9 = 9 :=
  ⟨claim_C8_amended_parse_failures.1 "abc" 4 (by decide) (by decide),
   claim_C8_amended_parse_failures.2.2.1 "abc" 7 (by decide) (by decide),
   claim_C8_amended_parse_failures.2.2.2.2.1 "zz" 9 (by decide)⟩

theorem emod256_bounds (v : Int) : 0 ≤ v % 256 ∧ v % 256 ≤ 255 := by
  constructor
  · exact Int.emod_nonneg v (by norm_num)
  · have := Int.emod_lt_of_pos v (show (0 : Int) < 256 by norm_num)
    omega

theorem setAssoc_bounds (l : List (String × Int)) (k : String) (v : Int)
    (hl : ∀ kv ∈ l, 0 ≤ kv.2 ∧ kv.2 ≤ 255) (hv : 0 ≤ v ∧ v ≤ 255) :
    ∀ kv ∈ setAssoc l k v, 0 ≤ kv.2 ∧ kv.2 ≤ 255 := by
  intro kv hkv
  unfold setAssoc at hkv
  split at hkv
  · obtain ⟨kv0, hkv0, heq⟩ := List.mem_map.mp hkv
    by_cases hk : kv0.1 = k
    · rw [if_pos hk] at heq
      rw [← heq]
      exact hv
    · rw [if_neg hk] at heq
      rw [← heq]
      exact hl kv0 hkv0
  · rcases List.mem_append.mp hkv with hmem | hmem
    · exact hl kv hmem
    · rw [List.mem_singleton.mp hmem]
      exact hv

theorem fold_voltage_bounds (names : List String) (texts : String → String)
    (l : List (String × Int)) (hl : ∀ kv ∈ l, 0 ≤ kv.2 ∧ kv.2 ≤ 255) :
    ∀ kv ∈ names.foldl
      (fun acc name =>
        match parseVoltageText (texts name) with
        | some v => setAssoc acc name (v % 256)
        | none => acc) l,
      0 ≤ kv.2 ∧ kv.2 ≤ 255 := by
  induction names generalizing l with
  | nil => exact hl
  | cons n rest ih =>
      simp only [List.foldl_cons]
      cases hp : parseVoltageText (texts n) with
      | none => exact ih l hl
      | some v => exact ih _ (setAssoc_bounds l n (v % 256) hl (emod256_bounds v))

/-- Claim C10: after every voltage-level edit each stored value lies in
0..255 — a successfully parsed integer is masked with `& 0xFF` (reduction
modulo 256) and stored rather than rejected, and values already in range stay
in range across a full `on_voltage_setting_change` pass. -/
theorem claim_C10_voltage_masking :
    (∀ text old v, parseVoltageText text = some v →
      voltage_setting_update text old = v % 256 ∧ 0 ≤ v % 256 ∧ v % 256 ≤ 255) ∧
    (∀ texts voltages, (∀ kv ∈ voltages, 0 ≤ kv.2 ∧ kv.2 ≤ 255) →
      ∀ kv ∈ on_voltage_setting_change texts voltages, 0 ≤ kv.2 ∧ kv.2 ≤ 255) := by
  constructor
  · intro text old v hp
    refine ⟨?_, emod256_bounds v⟩
    unfold voltage_setting_update
    rw [hp]
  · intro texts voltages hv
    exact fold_voltage_bounds VOLTAGE_NAMES texts voltages hv

theorem claim_C10_voltage_masking_witness :
    voltage_setting_update "300" 23 = 44 ∧ (0 : Int) ≤ 44 ∧ (44 : Int) ≤ 255 := by
  have h := claim_C10_voltage_masking.1 "300" 23 300 (by decide)
  refine ⟨?_, by decide, by decide⟩
  rw [h.1]
  decide

theorem parseStrings_map (l : List String) : parseStrings (l.map JVal.jstr) = some l := by
  induction l with
  | nil => rfl
  | cons s rest ih => simp [parseStrings, ih]

theorem parseInts_map (g : List Int) : parseInts (g.map JVal.jint) = some g := by
  induction g with
  | nil => rfl
  | cons n rest ih => simp [parseInts, ih]

theorem parseIntLists_map (tgs : List (List Int)) :
    parseIntLists (tgs.map (fun g => JVal.jarr (g.map JVal.jint))) = some tgs := by
  induction tgs with
  | nil => rfl
  | cons g rest ih => simp [parseIntLists, parseInts_map, ih]

theorem parseVoltPairs_map (vs : List (String × Int)) :
    parseVoltPairs (vs.map (fun kv => (kv.1, JVal.jint kv.2))) = some vs := by
  induction vs with
  | nil => rfl
  | cons kv rest ih =>
      rcases kv with ⟨k, n⟩
      simp [parseVoltPairs, ih]

theorem parsePatternPairs_map (ps : List (Int × List String))
    (hk : ∀ kv ∈ ps, pyInt (toString kv.1) = some kv.1) :
    parsePatternPairs
      (ps.map (fun kv => (toString kv.1, JVal.jarr (kv.2.map JVal.jstr)))) = some ps := by
  induction ps with
  | nil => rfl
  | cons kv rest ih =>
      rcases kv with ⟨k, p⟩
      have hk0 := hk (k, p) (by simp)
      have hrest := ih (fun kv hkv => hk kv (by simp [hkv]))
      simp only at hk0
      simp [parsePatternPairs, parseStrings_map, hk0, hrest]

theorem lookup_isSome_of_mem_fst {α β : Type} [BEq α] [LawfulBEq α] [DecidableEq α]
    (l : List (α × β)) (t : α) (h : t ∈ l.map Prod.fst) : (l.lookup t).isSome = true := by
  induction l with
  | nil => simp at h
  | cons kv rest ih =>
      rcases kv with ⟨k, v⟩
      by_cases hk : t = k
      · subst hk
        simp [List.lookup]
      · simp only [List.map_cons] at h
        rcases List.mem_cons.mp h with h0 | h0
        · exact absurd h0 hk
        · simpa [List.lookup, beq_eq_false_iff_ne.mpr hk] using ih h0

theorem valid_reload_ok (M : Model) (h : ValidModel M) : reload_ui_ok M = true := by
  obtain ⟨hkeys, -, hlen, hgrp, -, -, hvkeys, -⟩ := h
  unfold reload_ui_ok
  simp only [Bool.and_eq_true, List.all_eq_true]
  refine ⟨⟨⟨?_, ?_⟩, ?_⟩, ?_⟩
  · intro t ht
    refine lookup_isSome_of_mem_fst _ _ ?_
    rw [hkeys]
    have ht4 : t < 4 := by simpa using ht
    interval_cases t <;> simp
  · intro g hg
    rw [decide_eq_true_eq]
    have hg10 : g < 10 := by simpa using hg
    rw [List.getD_eq_getElem _ _ (by omega)]
    have hmem := List.getElem_mem (l := M.timing_groups) (n := g) (by omega)
    rw [(hgrp _ hmem).1]
  · intro kv hkv
    have hmem : kv.1 ∈ M.voltages.map Prod.fst := List.mem_map_of_mem Prod.fst hkv
    rw [hvkeys] at hmem
    simpa [VOLTAGE_NAMES] using hmem
  · intro n hn
    refine lookup_isSome_of_mem_fst _ _ ?_
    rw [hvkeys]
    simpa [VOLTAGE_NAMES] using hn

theorem load_save (m0 M : Model)
    (hk : ∀ kv ∈ M.voltage_patterns, pyInt (toString kv.1) = some kv.1) :
    load_from_file m0 (save_to_file M) =
      (M, if reload_ui_ok M then none else some LoadError.malformedDocument) := by
  by_cases hr : reload_ui_ok M = true <;>
    simp [load_from_file, save_to_file, getField, List.lookup,
      parsePatternsDict, parsePatternPairs_map M.voltage_patterns hk,
      parseTimingGroups, parseIntLists_map, parseIntVal,
      parseVoltages, parseVoltPairs_map, hr]

/-- Claim C3: for every valid WaveformModel, decoding the saved interchange
document succeeds and yields a model whose encoded LUT is byte-for-byte
identical (here: the decoded model equals the saved one, so the LUTs agree;
validity also makes every reload step of the source succeed). -/
theorem claim_C3_persistence_roundtrip (m0 M : Model) (h : ValidModel M) :
    load_from_file m0 (save_to_file M) = (M, none) ∧
    voltage_pattern_to_lut (load_from_file m0 (save_to_file M)).1 =
      voltage_pattern_to_lut M := by
  have hkeys := h.1
  have hk : ∀ kv ∈ M.voltage_patterns, pyInt (toString kv.1) = some kv.1 := by
    intro kv hkv
    have hmem : kv.1 ∈ M.voltage_patterns.map Prod.fst := List.mem_map_of_mem Prod.fst hkv
    rw [hkeys] at hmem
    simp only [List.mem_cons, List.not_mem_nil, or_false] at hmem
    rcases hmem with h0 | h0 | h0 | h0 <;> rw [h0] <;> decide
  have hload := load_save m0 M hk
  rw [valid_reload_ok M h] at hload
  simp only [if_true] at hload
  exact ⟨hload, by rw [hload]⟩

theorem claim_C3_persistence_roundtrip_witness :
    load_from_file defaultModel (save_to_file defaultModel) = (defaultModel, none) :=
  (claim_C3_persistence_roundtrip defaultModel defaultModel (by decide)).1

